import Mathlib

/-!
Verification development for the shot-video enrichment pipeline
(`shot_collect.py`) and the flat-file combiner (`collect_data.py`).

The Python code manipulates pandas DataFrames.  The embedding models a
DataFrame cell that participates in an `astype` coercion by the type `Val`
(a pandas column is either integer-typed or string-typed here), a shot
table as a column list plus a list of typed rows, and the filesystem as a
function from paths to optional file contents.  Fallible operations
(`astype(int)` on arbitrary data) return `Option`.
-/

/-- A pandas cell value for columns that undergo `astype` coercion:
either an integer-typed or a string-typed value. -/
inductive Val where
  | vInt : Int → Val
  | vStr : String → Val
deriving DecidableEq

/-- `astype(str)` on a cell: integers render to their decimal string. -/
def Val.astypeStr : Val → Val
  | .vInt n => .vStr (toString n)
  | .vStr s => .vStr s

/-- `astype(int)` on a cell: strings are parsed as decimal integers;
an unparsable string raises in pandas, modelled by `none`. -/
def Val.astypeInt : Val → Option Val
  | .vInt n => some (.vInt n)
  | .vStr s => (s.toInt?).map .vInt

/-- One row of the shot table fed to `merge_with_uuid_data`:
`GAME_ID` and `GAME_EVENT_ID` are raw cells (they get coerced in place),
`SHOT_ID` is the display/sort key, `year_source` and `team_id` are the
partitioning tags added by the loader, `year` holds the cell of an
ambiguous pre-existing `year` column when that column is present, and
`rest` carries the remaining pass-through cells. -/
structure SRow where
  game_id : Val
  game_event_id : Val
  shot_id : Int
  year_source : Int
  team_id : Int
  year : Option Val
  season_type : String
  rest : List String
deriving DecidableEq

/-- The shot DataFrame: its column list plus its rows. -/
structure ShotTable where
  cols : List String
  rows : List SRow
deriving DecidableEq

/-- One row of the UUID backup (identifier-mapping) table. -/
structure BRow where
  game_id : Val
  action_number : Val
  year : Int
  month : Int
  day : Int
  api_game_id : String
  uuid : Option String
deriving DecidableEq

/-- The mapping-side fields a matched shot row gains from the left join. -/
structure MapRec where
  year : Int
  month : Int
  day : Int
  api_game_id : String
  uuid : Option String
deriving DecidableEq

/-- One row of the merged (enriched) table: the coerced shot fields, the
joined mapping fields (`none` on a non-match), and the derived URL. -/
structure MRow where
  shot : SRow
  mapping : Option MapRec
  video_url : Option String
deriving DecidableEq

/-- The merged DataFrame: its column list plus its rows. -/
structure MTable where
  cols : List String
  rows : List MRow
deriving DecidableEq

/-- `shot_data_df.drop(columns='year', inplace=True)` guarded by
`if 'year' in shot_data_df.columns`. -/
def dropYearCol (t : ShotTable) : ShotTable :=
  if "year" ∈ t.cols then
    { cols := t.cols.filter (fun c => !(c == "year")),
      rows := t.rows.map (fun r => { r with year := none }) }
  else t

/-- In-place coercion of one shot row: `GAME_ID` to string and
`GAME_EVENT_ID` to integer; also returns the integer event id. -/
def coerceS (r : SRow) : Option (SRow × Int) :=
  match r.game_event_id.astypeInt with
  | some (.vInt n) =>
      some ({ r with game_id := r.game_id.astypeStr, game_event_id := .vInt n }, n)
  | _ => none

/-- Coercion of one backup row: `game_id` to string, `action_number`
to integer. -/
def coerceB (b : BRow) : Option BRow :=
  match b.action_number.astypeInt with
  | some an => some { b with game_id := b.game_id.astypeStr, action_number := an }
  | none => none

/-- Selects the mapping-side columns carried into the merged table. -/
def toMapRec (b : BRow) : MapRec :=
  { year := b.year, month := b.month, day := b.day,
    api_game_id := b.api_game_id, uuid := b.uuid }

/-- A fallible map over a list: `none` as soon as one element fails. -/
def optMap (f : α → Option β) : List α → Option (List β)
  | [] => some []
  | a :: l =>
    match f a, optMap f l with
    | some b, some bs => some (b :: bs)
    | _, _ => none

/-- Concatenation of `f` over a list (the fan-out of a left join). -/
def listBind (l : List α) (f : α → List β) : List β :=
  match l with
  | [] => []
  | a :: l => f a ++ listBind l f

/-- The per-row URL derivation of `generate_video_url`: null when the
token is missing or is the sentinel, otherwise the fixed template with
year/month/day/event id substituted as unpadded integers. -/
def generate_video_url (event_id : Int) (m : Option MapRec) : Option String :=
  match m with
  | none => none
  | some mr =>
    match mr.uuid with
    | none => none
    | some t =>
      if t = "NO_VIDEO" then none
      else some ("https://videos.nba.com/nba/pbp/media/" ++ toString mr.year
        ++ "/" ++ toString mr.month ++ "/" ++ toString mr.day ++ "/"
        ++ mr.api_game_id ++ "/" ++ toString event_id ++ "/" ++ t
        ++ "_1280x720.mp4")

/-- The merged rows contributed by one coerced shot row: the backup rows
whose coerced key equals the shot row's key, or a single unmatched row. -/
def mergeRowsFor (backupC : List BRow) (sn : SRow × Int) : List MRow :=
  match backupC.filter (fun b =>
      decide (b.game_id = sn.1.game_id ∧ b.action_number = sn.1.game_event_id)) with
  | [] => [{ shot := sn.1, mapping := none, video_url := generate_video_url sn.2 none }]
  | ms => ms.map (fun b =>
      { shot := sn.1, mapping := some (toMapRec b),
        video_url := generate_video_url sn.2 (some (toMapRec b)) })

/-- `merge_with_uuid_data`: drops any ambiguous `year` column in place,
coerces the join keys on both sides, left-joins on
(`GAME_ID`,`GAME_EVENT_ID`) = (`game_id`,`action_number`), drops the join
helper columns, and derives `video_url` per row.  Returns the mutated
shot table (the caller's DataFrame after the call) together with the
merged table. -/
def merge_with_uuid_data (shot : ShotTable) (backup : List BRow) :
    Option (ShotTable × MTable) :=
  match optMap coerceS (dropYearCol shot).rows with
  | none => none
  | some coerced =>
    match optMap coerceB backup with
    | none => none
    | some backupC =>
      some ({ cols := (dropYearCol shot).cols, rows := coerced.map Prod.fst },
            { cols := (dropYearCol shot).cols
                ++ ["year", "month", "day", "api_game_id", "uuid", "video_url"],
              rows := listBind coerced (mergeRowsFor backupC) })

/-- The filesystem: a map from paths to file contents. -/
def FS : Type := String → Option String

/-- Writing a file fully overwrites the content at its path. -/
def fsWrite (fs : FS) (p c : String) : FS :=
  fun q => if q = p then some c else fs q

/-- Applies a sequence of file writes in order. -/
def applyWrites : List (String × String) → FS → FS
  | [], fs => fs
  | w :: ws, fs => applyWrites ws (fsWrite fs w.1 w.2)

/-- A stable insert: `a` goes after exactly the elements strictly below
it, so an element equal to `a` that was already present stays in front
only if it is strictly below, i.e. never for equal keys. -/
def insertLe (le : α → α → Bool) (a : α) : List α → List α
  | [] => [a]
  | b :: l => if le b a && !le a b then b :: insertLe le a l else a :: b :: l

/-- A stable insertion sort by the boolean preorder `le`. -/
def insertionSort (le : α → α → Bool) : List α → List α
  | [] => []
  | a :: l => insertLe le a (insertionSort le l)

/-- The grouping key of `groupby(['year_source', 'team_id'])`. -/
def rowKey (r : MRow) : Int × Int := (r.shot.year_source, r.shot.team_id)

/-- Ascending lexicographic order on (year, team) group keys, as
`groupby` sorts its groups. -/
def pairLeP (x y : Int × Int) : Prop :=
  x.1 < y.1 ∨ (x.1 = y.1 ∧ x.2 ≤ y.2)

instance (x y : Int × Int) : Decidable (pairLeP x y) := by
  unfold pairLeP; infer_instance

/-- Boolean form of `pairLeP`. -/
def pairLe (x y : Int × Int) : Bool := decide (pairLeP x y)

/-- The distinct (year_source, team_id) keys of the merged table, in the
ascending order `groupby` yields them. -/
def groupKeys (t : MTable) : List (Int × Int) :=
  insertionSort pairLe (t.rows.map rowKey).dedup

/-- The rows of one `groupby` group: the rows carrying key `k`, in
input order. -/
def groupRowsAt (t : MTable) (k : Int × Int) : List MRow :=
  t.rows.filter (fun r => decide (rowKey r = k))

/-- The groups of `merged_df.groupby(['year_source', 'team_id'])`: each
key paired with the rows carrying that key, in input order. -/
def groupsOf (t : MTable) : List ((Int × Int) × List MRow) :=
  (groupKeys t).map (fun k => (k, groupRowsAt t k))

/-- `os.path.join(base_output_dir, str(year), str(team_id) + '.csv')`. -/
def pathFor (base : String) (k : Int × Int) : String :=
  base ++ "/" ++ toString k.1 ++ "/" ++ toString k.2 ++ ".csv"

/-- The reordered column list written per group: `SHOT_ID` and
`video_url` first, then every other column in its existing order. -/
def finalColumns (cols : List String) : List String :=
  ["SHOT_ID", "video_url"] ++ cols.filter (fun c => !(c == "SHOT_ID" || c == "video_url"))

/-- Rendering of one cell. -/
def renderVal : Val → String
  | .vInt n => toString n
  | .vStr s => s

/-- Rendering of the joined mapping cells (empty cells on a non-match). -/
def mappingCells : Option MapRec → List String
  | none => ["", "", "", "", ""]
  | some m => [toString m.year, toString m.month, toString m.day,
      m.api_game_id, m.uuid.getD ""]

/-- CSV-style rendering of one merged row, `SHOT_ID` and `video_url`
leading. -/
def renderMRow (r : MRow) : String :=
  String.intercalate "," ([toString r.shot.shot_id, r.video_url.getD "",
    renderVal r.shot.game_id, renderVal r.shot.game_event_id,
    toString r.shot.year_source, toString r.shot.team_id, r.shot.season_type]
    ++ r.shot.rest ++ mappingCells r.mapping)

/-- CSV-style rendering of one group's file: reordered header line, then
the group's rows. -/
def renderFile (cols : List String) (g : List MRow) : String :=
  String.intercalate "," (finalColumns cols) ++ "\n"
    ++ String.intercalate "\n" (g.map renderMRow)

/-- The (path, content) writes `save_data_by_year_and_team` performs:
one file per group, named by the group key. -/
def partitionWrites (t : MTable) (base : String) : List (String × String) :=
  (groupsOf t).map (fun kg => (pathFor base kg.1, renderFile t.cols kg.2))

/-- Outcome of a `save_data_by_year_and_team` call. -/
inductive SaveResult where
  | ok : Nat → SaveResult
  | missingColumns : SaveResult
deriving DecidableEq

/-- `save_data_by_year_and_team`: reports an error and returns, writing
nothing, when `year_source` or `team_id` is absent; otherwise groups by
(year_source, team_id) and writes one reordered file per group. -/
def save_data_by_year_and_team (t : MTable) (base : String) (fs : FS) :
    SaveResult × FS :=
  if "year_source" ∈ t.cols ∧ "team_id" ∈ t.cols then
    (SaveResult.ok (groupsOf t).length, applyWrites (partitionWrites t base) fs)
  else (SaveResult.missingColumns, fs)

/-- One row of a file read back by the combiner: the four sort-key
columns plus the remaining cells. -/
structure CRow where
  year : Int
  month : Int
  day : Int
  shot_id : Int
  rest : List String
deriving DecidableEq

/-- The composite sort key `['year', 'month', 'day', 'SHOT_ID']`. -/
def crowKey (r : CRow) : Int × Int × Int × Int := (r.year, r.month, r.day, r.shot_id)

/-- Ascending lexicographic comparison of two composite sort keys. -/
def keyLeP (x y : Int × Int × Int × Int) : Prop :=
  x.1 < y.1 ∨ (x.1 = y.1 ∧ (x.2.1 < y.2.1 ∨ (x.2.1 = y.2.1 ∧
    (x.2.2.1 < y.2.2.1 ∨ (x.2.2.1 = y.2.2.1 ∧ x.2.2.2 ≤ y.2.2.2)))))

instance (x y : Int × Int × Int × Int) : Decidable (keyLeP x y) := by
  unfold keyLeP; infer_instance

/-- Boolean comparison of combiner rows by the composite key. -/
def crowLe (a b : CRow) : Bool := decide (keyLeP (crowKey a) (crowKey b))

/-- The stable multi-column sort of `sort_values(by=['year', 'month',
'day', 'SHOT_ID'])` (pandas uses a stable lexsort for several columns). -/
def sortRows (l : List CRow) : List CRow := insertionSort crowLe l

/-- Rendering of one combined row. -/
def renderCRow (r : CRow) : String :=
  String.intercalate "," ([toString r.year, toString r.month, toString r.day,
    toString r.shot_id] ++ r.rest)

/-- Rendering of the combined flat file. -/
def renderCombined (rows : List CRow) : String :=
  String.intercalate "\n" (rows.map renderCRow)

/-- Outcome of a `combine_shot_data` run.  Only `missingDir` is reported
as an error by the code; the two empty outcomes are normal. -/
inductive CombineResult where
  | missingDir : CombineResult
  | noFilesFound : CombineResult
  | noneRead : CombineResult
  | written : List CRow → CombineResult
deriving DecidableEq

/-- `combine_shot_data`: `dirExists` is whether the root directory
exists, `files` the discovered CSV paths with `some rows` for a
successful read and `none` for a read failure.  Combines the readable
files, sorts by the composite key, and writes one flat file; on an
absent directory, no files, or no readable file it returns with the
filesystem untouched. -/
def combine_shot_data (dirExists : Bool) (files : List (String × Option (List CRow)))
    (outPath : String) (fs : FS) : CombineResult × FS :=
  if !dirExists then (CombineResult.missingDir, fs)
  else if files.isEmpty then (CombineResult.noFilesFound, fs)
  else
    match files.filterMap Prod.snd with
    | [] => (CombineResult.noneRead, fs)
    | d :: ds =>
      (CombineResult.written (sortRows ((d :: ds).flatten)),
       fsWrite fs outPath (renderCombined (sortRows ((d :: ds).flatten))))

/-! ## Generic helper lemmas -/

theorem optMap_length {f : α → Option β} :
    ∀ {l : List α} {l' : List β}, optMap f l = some l' → l'.length = l.length := by
  intro l
  induction l with
  | nil => intro l' h; simp [optMap] at h; simp [← h]
  | cons a l ih =>
    intro l' h
    simp only [optMap] at h
    cases hfa : f a with
    | none => rw [hfa] at h; simp at h
    | some b =>
      rw [hfa] at h
      cases hrec : optMap f l with
      | none => rw [hrec] at h; simp at h
      | some bs =>
        rw [hrec] at h
        simp at h
        simp [← h, ih hrec]

theorem optMap_forall₂ {f : α → Option β} :
    ∀ {l : List α} {l' : List β}, optMap f l = some l' →
      List.Forall₂ (fun b a => f a = some b) l' l := by
  intro l
  induction l with
  | nil => intro l' h; simp [optMap] at h; simp [← h]
  | cons a l ih =>
    intro l' h
    simp only [optMap] at h
    cases hfa : f a with
    | none => rw [hfa] at h; simp at h
    | some b =>
      rw [hfa] at h
      cases hrec : optMap f l with
      | none => rw [hrec] at h; simp at h
      | some bs =>
        rw [hrec] at h
        simp at h
        rw [← h]
        exact List.Forall₂.cons hfa (ih hrec)

theorem listBind_length_one {f : α → List β} :
    ∀ {l : List α}, (∀ x ∈ l, (f x).length = 1) →
      (listBind l f).length = l.length := by
  intro l
  induction l with
  | nil => intro _; simp [listBind]
  | cons a l ih =>
    intro h
    simp only [listBind, List.length_append]
    rw [h a (by simp), ih (fun x hx => h x (by simp [hx]))]
    simp only [List.length_cons]
    omega

theorem mem_listBind {f : α → List β} {b : β} :
    ∀ {l : List α}, b ∈ listBind l f ↔ ∃ a ∈ l, b ∈ f a := by
  intro l
  induction l with
  | nil => simp [listBind]
  | cons a l ih => simp [listBind, ih]

theorem length_filter_le_one {p : α → Bool} :
    ∀ {l : List α}, l.Pairwise (fun a b => ¬(p a = true ∧ p b = true)) →
      (l.filter p).length ≤ 1 := by
  intro l
  induction l with
  | nil => intro _; simp
  | cons a l ih =>
    intro h
    rcases List.pairwise_cons.mp h with ⟨ha, hl⟩
    by_cases hpa : p a = true
    · have : l.filter p = [] := by
        rw [List.filter_eq_nil_iff]
        intro b hb hpb
        exact ha b hb ⟨hpa, hpb⟩
      simp [List.filter_cons, hpa, this]
    · simp only [List.filter_cons, if_neg hpa]
      exact ih hl

theorem mem_insertLe {le : α → α → Bool} {a x : α} :
    ∀ {l : List α}, x ∈ insertLe le a l ↔ x = a ∨ x ∈ l := by
  intro l
  induction l with
  | nil => simp [insertLe]
  | cons b l ih =>
    simp only [insertLe]
    by_cases hc : (le b a && !le a b) = true
    · rw [if_pos hc]
      simp [ih]
      tauto
    · rw [if_neg hc]
      simp

theorem insertLe_perm (le : α → α → Bool) (a : α) :
    ∀ (l : List α), List.Perm (insertLe le a l) (a :: l) := by
  intro l
  induction l with
  | nil => simp [insertLe]
  | cons b l ih =>
    simp only [insertLe]
    by_cases hc : (le b a && !le a b) = true
    · rw [if_pos hc]
      exact (ih.cons b).trans (List.Perm.swap a b l)
    · rw [if_neg hc]

theorem insertionSort_perm (le : α → α → Bool) :
    ∀ (l : List α), List.Perm (insertionSort le l) l := by
  intro l
  induction l with
  | nil => simp [insertionSort]
  | cons a l ih =>
    exact (insertLe_perm le a (insertionSort le l)).trans (ih.cons a)

theorem pairwise_insertLe {le : α → α → Bool}
    (htot : ∀ x y, le x y || le y x)
    (htrans : ∀ x y z, le x y = true → le y z = true → le x z = true)
    (a : α) :
    ∀ {l : List α}, l.Pairwise (fun x y => le x y = true) →
      (insertLe le a l).Pairwise (fun x y => le x y = true) := by
  intro l
  induction l with
  | nil => intro _; simp [insertLe]
  | cons b l ih =>
    intro h
    rcases List.pairwise_cons.mp h with ⟨hb, hl⟩
    simp only [insertLe]
    by_cases hc : (le b a && !le a b) = true
    · rw [if_pos hc]
      have hba : le b a = true := by
        revert hc
        cases le b a <;> simp
      refine List.pairwise_cons.mpr ⟨?_, ih hl⟩
      intro x hx
      rcases mem_insertLe.mp hx with hxa | hxl
      · rw [hxa]; exact hba
      · exact hb x hxl
    · rw [if_neg hc]
      have hab : le a b = true := by
        revert hc
        have htot' := htot a b
        revert htot'
        cases le a b <;> cases le b a <;> simp
      refine List.pairwise_cons.mpr ⟨?_, h⟩
      intro x hx
      rcases List.mem_cons.mp hx with hxb | hxl
      · rw [hxb]; exact hab
      · exact htrans a b x hab (hb x hxl)

theorem pairwise_insertionSort {le : α → α → Bool}
    (htot : ∀ x y, le x y || le y x)
    (htrans : ∀ x y z, le x y = true → le y z = true → le x z = true) :
    ∀ (l : List α), (insertionSort le l).Pairwise (fun x y => le x y = true) := by
  intro l
  induction l with
  | nil => simp [insertionSort]
  | cons a l ih => exact pairwise_insertLe htot htrans a ih

theorem filter_insertLe {le : α → α → Bool} {p : α → Bool}
    (hp : ∀ x y, p x = true → p y = true → (le x y && !le y x) = false)
    (a : α) :
    ∀ (l : List α), (insertLe le a l).filter p =
      if p a then a :: l.filter p else l.filter p := by
  intro l
  induction l with
  | nil => simp [insertLe, List.filter_cons]
  | cons b l ih =>
    simp only [insertLe]
    by_cases hc : (le b a && !le a b) = true
    · rw [if_pos hc]
      by_cases hpa : p a = true
      · have hpb : p b = false := by
          by_cases hpb' : p b = true
          · exact absurd hc (by simp [hp b a hpb' hpa])
          · simpa using hpb'
        simp [List.filter_cons, ih, hpa, hpb]
      · have hpa' : p a = false := by simpa using hpa
        simp [List.filter_cons, ih, hpa']
    · rw [if_neg hc]
      by_cases hpa : p a = true
      · simp [List.filter_cons, hpa]
      · have hpa' : p a = false := by simpa using hpa
        simp [List.filter_cons, hpa']

theorem filter_insertionSort {le : α → α → Bool} {p : α → Bool}
    (hp : ∀ x y, p x = true → p y = true → (le x y && !le y x) = false) :
    ∀ (l : List α), (insertionSort le l).filter p = l.filter p := by
  intro l
  induction l with
  | nil => simp [insertionSort]
  | cons a l ih =>
    simp only [insertionSort, filter_insertLe hp, List.filter_cons, ih]

/-- The content a path holds after a sequence of writes: the last write
to that path, when there is one. -/
def lookupLast : List (String × String) → String → Option String
  | [], _ => none
  | w :: ws, q =>
    match lookupLast ws q with
    | some c => some c
    | none => if q = w.1 then some w.2 else none

theorem applyWrites_lookup :
    ∀ (ws : List (String × String)) (fs : FS) (q : String),
      applyWrites ws fs q =
        match lookupLast ws q with
        | some c => some c
        | none => fs q := by
  intro ws
  induction ws with
  | nil => intro fs q; simp [applyWrites, lookupLast]
  | cons w ws ih =>
    intro fs q
    simp only [applyWrites, lookupLast, ih]
    cases lookupLast ws q with
    | some c => simp
    | none => by_cases hq : q = w.1 <;> simp [fsWrite, hq]

theorem applyWrites_idem (ws : List (String × String)) (fs : FS) :
    applyWrites ws (applyWrites ws fs) = applyWrites ws fs := by
  funext q
  rw [applyWrites_lookup, applyWrites_lookup]
  cases h : lookupLast ws q with
  | some c => simp
  | none => simp [applyWrites_lookup, h]

theorem sum_map_add (f g : κ → Nat) :
    ∀ (ks : List κ),
      (ks.map (fun k => f k + g k)).sum = (ks.map f).sum + (ks.map g).sum := by
  intro ks
  induction ks with
  | nil => simp
  | cons k ks ih => simp [ih]; omega

theorem sum_map_ite_count [DecidableEq κ] (a : κ) :
    ∀ (ks : List κ),
      (ks.map (fun k => if a = k then 1 else 0)).sum = ks.count a := by
  intro ks
  induction ks with
  | nil => simp
  | cons k ks ih =>
    simp only [List.map_cons, List.sum_cons, ih, List.count_cons]
    by_cases h : a = k
    · simp [h]; omega
    · simp [h, Ne.symm h]

theorem sum_group_lengths [DecidableEq κ] (key : ρ → κ) (ks : List κ) :
    ∀ (rows : List ρ), ks.Nodup → (∀ r ∈ rows, key r ∈ ks) →
      (ks.map (fun k => (rows.filter (fun r => decide (key r = k))).length)).sum
        = rows.length := by
  intro rows
  induction rows with
  | nil => intro _ _; simp
  | cons r rows ih =>
    intro hnd h
    have hstep : ∀ k ∈ ks,
        ((r :: rows).filter (fun x => decide (key x = k))).length
          = (if key r = k then 1 else 0)
            + (rows.filter (fun x => decide (key x = k))).length := by
      intro k _
      by_cases hk : key r = k
      · simp [List.filter_cons, hk]
        omega
      · simp [List.filter_cons, hk]
    rw [List.map_congr_left (fun k hk => hstep k hk), sum_map_add,
      sum_map_ite_count, ih hnd (fun x hx => h x (by simp [hx])),
      List.count_eq_one_of_mem hnd (h r (by simp))]
    simp [Nat.add_comm]

/-! ## Facts about the concrete orders and the embedded operations -/

theorem crowLe_total (a b : CRow) : crowLe a b || crowLe b a := by
  rcases a with ⟨a1, a2, a3, a4, a5⟩
  rcases b with ⟨b1, b2, b3, b4, b5⟩
  simp only [crowLe, crowKey, keyLeP, Bool.or_eq_true, decide_eq_true_eq]
  omega

theorem crowLe_trans (a b c : CRow) :
    crowLe a b = true → crowLe b c = true → crowLe a c = true := by
  rcases a with ⟨a1, a2, a3, a4, a5⟩
  rcases b with ⟨b1, b2, b3, b4, b5⟩
  rcases c with ⟨c1, c2, c3, c4, c5⟩
  simp only [crowLe, crowKey, keyLeP, decide_eq_true_eq]
  omega

theorem keyLeP_refl (z : Int × Int × Int × Int) : keyLeP z z := by
  rcases z with ⟨z1, z2, z3, z4⟩
  simp [keyLeP]

theorem crow_eqkey_not_strict (k : Int × Int × Int × Int) (x y : CRow)
    (hx : decide (crowKey x = k) = true) (hy : decide (crowKey y = k) = true) :
    (crowLe x y && !crowLe y x) = false := by
  simp only [decide_eq_true_eq] at hx hy
  have hxy : crowLe x y = true := by
    simp only [crowLe, decide_eq_true_eq, hx, hy]
    exact keyLeP_refl k
  have hyx : crowLe y x = true := by
    simp only [crowLe, decide_eq_true_eq, hx, hy]
    exact keyLeP_refl k
  simp [hxy, hyx]

theorem groupKeys_nodup (t : MTable) : (groupKeys t).Nodup :=
  ((insertionSort_perm pairLe (t.rows.map rowKey).dedup).nodup_iff).mpr
    (List.nodup_dedup _)

theorem mem_groupKeys {t : MTable} {k : Int × Int} :
    k ∈ groupKeys t ↔ k ∈ t.rows.map rowKey :=
  ((insertionSort_perm pairLe (t.rows.map rowKey).dedup).mem_iff).trans
    (List.mem_dedup)

theorem optMap_mem_src {f : α → Option β} :
    ∀ {l : List α} {l' : List β}, optMap f l = some l' →
      ∀ b ∈ l', ∃ a ∈ l, f a = some b := by
  intro l
  induction l with
  | nil =>
    intro l' h
    simp [optMap] at h
    subst h
    simp
  | cons a l ih =>
    intro l' h
    simp only [optMap] at h
    cases hfa : f a with
    | none => rw [hfa] at h; simp at h
    | some b0 =>
      rw [hfa] at h
      cases hrec : optMap f l with
      | none => rw [hrec] at h; simp at h
      | some bs =>
        rw [hrec] at h
        simp only [Option.some.injEq] at h
        subst h
        intro b hb
        rcases List.mem_cons.mp hb with h' | h'
        · exact ⟨a, by simp, h' ▸ hfa⟩
        · rcases ih hrec b h' with ⟨a', ha', hfa'⟩
          exact ⟨a', by simp [ha'], hfa'⟩

theorem coerceS_spec {a : SRow} {sn : SRow × Int} (h : coerceS a = some sn) :
    sn.1 = { a with game_id := a.game_id.astypeStr, game_event_id := .vInt sn.2 }
      ∧ a.game_event_id.astypeInt = some (.vInt sn.2) := by
  unfold coerceS at h
  cases hv : a.game_event_id.astypeInt with
  | none => rw [hv] at h; simp at h
  | some v =>
    cases v with
    | vInt n =>
      rw [hv] at h
      simp only [Option.some.injEq] at h
      subst h
      exact ⟨rfl, rfl⟩
    | vStr s => rw [hv] at h; simp at h

theorem dropYearCol_rows_length (t : ShotTable) :
    (dropYearCol t).rows.length = t.rows.length := by
  unfold dropYearCol
  by_cases h : "year" ∈ t.cols <;> simp [h]

theorem merged_rows_spec {shot : ShotTable} {backup : List BRow}
    {out : ShotTable × MTable}
    (h : merge_with_uuid_data shot backup = some out) :
    ∀ r ∈ out.2.rows, ∃ n : Int, r.shot.game_event_id = Val.vInt n ∧
      r.video_url = generate_video_url n r.mapping := by
  unfold merge_with_uuid_data at h
  cases hc : optMap coerceS (dropYearCol shot).rows with
  | none => rw [hc] at h; simp at h
  | some coerced =>
    rw [hc] at h
    cases hb : optMap coerceB backup with
    | none => rw [hb] at h; simp at h
    | some backupC =>
      rw [hb] at h
      simp only [Option.some.injEq] at h
      subst h
      intro r hr
      simp only at hr
      rcases mem_listBind.mp hr with ⟨sn, hsn, hrin⟩
      rcases optMap_mem_src hc sn hsn with ⟨a, _, hca⟩
      have hspec := coerceS_spec hca
      have hev : sn.1.game_event_id = Val.vInt sn.2 := by rw [hspec.1]
      refine ⟨sn.2, ?_, ?_⟩
      · unfold mergeRowsFor at hrin
        cases hms : backupC.filter (fun b =>
            decide (b.game_id = sn.1.game_id ∧ b.action_number = sn.1.game_event_id)) with
        | nil =>
          rw [hms] at hrin
          simp at hrin
          rw [hrin]
          exact hev
        | cons b0 ms =>
          rw [hms] at hrin
          simp only [List.mem_map] at hrin
          rcases hrin with ⟨b', _, hb'⟩
          rw [← hb']
          exact hev
      · unfold mergeRowsFor at hrin
        cases hms : backupC.filter (fun b =>
            decide (b.game_id = sn.1.game_id ∧ b.action_number = sn.1.game_event_id)) with
        | nil =>
          rw [hms] at hrin
          simp at hrin
          rw [hrin]
        | cons b0 ms =>
          rw [hms] at hrin
          simp only [List.mem_map] at hrin
          rcases hrin with ⟨b', _, hb'⟩
          rw [← hb']

/-! ## Claim theorems -/

/-- C1: in the enriched table produced by `merge_with_uuid_data`, a row's
`video_url` is null exactly when the joined video token is null or is the
sentinel "NO_VIDEO"; for a non-null, non-sentinel token the URL is the
fixed template with the reconciliation year, month, day and the integer
event id substituted without zero-padding. -/
theorem video_url_spec
    (shot : ShotTable) (backup : List BRow) (out : ShotTable × MTable)
    (h : merge_with_uuid_data shot backup = some out) :
    ∀ r ∈ out.2.rows,
      (r.video_url = none ↔
        r.mapping.bind MapRec.uuid = none
          ∨ r.mapping.bind MapRec.uuid = some "NO_VIDEO")
      ∧ (∀ mr t n, r.mapping = some mr → mr.uuid = some t → t ≠ "NO_VIDEO" →
          r.shot.game_event_id = Val.vInt n →
          r.video_url = some ("https://videos.nba.com/nba/pbp/media/"
            ++ toString mr.year ++ "/" ++ toString mr.month ++ "/"
            ++ toString mr.day ++ "/" ++ mr.api_game_id ++ "/" ++ toString n
            ++ "/" ++ t ++ "_1280x720.mp4")) := by
  intro r hr
  rcases merged_rows_spec h r hr with ⟨n0, hev, hurl⟩
  constructor
  · rw [hurl]
    cases hm : r.mapping with
    | none => simp [generate_video_url]
    | some mr =>
      cases hu : mr.uuid with
      | none => simp [generate_video_url, hu]
      | some t =>
        by_cases ht : t = "NO_VIDEO"
        · simp [generate_video_url, hu, ht]
        · simp [generate_video_url, hu, ht]
  · intro mr t n hm hu ht hev'
    have hn : n = n0 := by
      rw [hev'] at hev
      exact (Val.vInt.injEq n n0).mp hev
    subst hn
    rw [hurl, hm]
    simp [generate_video_url, hu, ht]

/-- C2: when the coerced mapping table has no duplicate
(game id, action number) key, the left join neither drops nor duplicates
shot rows: the enriched table has exactly as many rows as the shot table. -/
theorem merge_preserves_row_count
    (shot : ShotTable) (backup : List BRow) (out : ShotTable × MTable)
    (backupC : List BRow)
    (hB : optMap coerceB backup = some backupC)
    (huniq : backupC.Pairwise (fun b1 b2 =>
      ¬(b1.game_id = b2.game_id ∧ b1.action_number = b2.action_number)))
    (h : merge_with_uuid_data shot backup = some out) :
    out.2.rows.length = shot.rows.length := by
  unfold merge_with_uuid_data at h
  cases hc : optMap coerceS (dropYearCol shot).rows with
  | none => rw [hc] at h; simp at h
  | some coerced =>
    rw [hc, hB] at h
    simp only [Option.some.injEq] at h
    subst h
    simp only
    rw [listBind_length_one, optMap_length hc, dropYearCol_rows_length]
    intro sn _
    unfold mergeRowsFor
    cases hms : backupC.filter (fun b =>
        decide (b.game_id = sn.1.game_id ∧ b.action_number = sn.1.game_event_id)) with
    | nil => simp
    | cons b0 ms =>
      have hle : ((backupC.filter (fun b =>
          decide (b.game_id = sn.1.game_id ∧ b.action_number = sn.1.game_event_id))).length ≤ 1) := by
        apply length_filter_le_one
        apply huniq.imp
        intro b1 b2 hne hcontr
        rcases hcontr with ⟨h1, h2⟩
        simp only [decide_eq_true_eq] at h1 h2
        exact hne ⟨h1.1.trans h2.1.symm, h1.2.trans h2.2.symm⟩
      rw [hms] at hle
      simp only [List.length_map, List.length_cons] at hle ⊢
      omega

/-- A two-row shot table sharing game "101", events 5 and 6. -/
def exShot : ShotTable :=
  { cols := ["GAME_ID", "GAME_EVENT_ID", "SHOT_ID", "year", "year_source", "team_id"],
    rows :=
      [{ game_id := .vStr "101", game_event_id := .vInt 5, shot_id := 1,
         year_source := 2021, team_id := 10, year := some (.vInt 2020),
         season_type := "REG", rest := [] },
       { game_id := .vStr "101", game_event_id := .vInt 6, shot_id := 2,
         year_source := 2021, team_id := 10, year := some (.vInt 2020),
         season_type := "REG", rest := [] }] }

/-- A mapping table with a token for event 5 and the sentinel for 6. -/
def exBackup : List BRow :=
  [{ game_id := .vStr "101", action_number := .vInt 5, year := 2021, month := 3,
     day := 4, api_game_id := "9999", uuid := some "abc" },
   { game_id := .vStr "101", action_number := .vInt 6, year := 2021, month := 3,
     day := 4, api_game_id := "9999", uuid := some "NO_VIDEO" }]

/-- An empty shot table, the default for reading off a merge output. -/
def emptyShotTable : ShotTable := { cols := [], rows := [] }

/-- An empty merged table, the default for reading off a merge output. -/
def emptyMTable : MTable := { cols := [], rows := [] }

/-- The merge output on the example inputs. -/
def exMergedOut : ShotTable × MTable :=
  (merge_with_uuid_data exShot exBackup).getD (emptyShotTable, emptyMTable)

/-- The mapping fields joined onto the first example row. -/
def exMr : MapRec :=
  { year := 2021, month := 3, day := 4, api_game_id := "9999", uuid := some "abc" }

/-- The first enriched example row. -/
def exR1 : MRow :=
  { shot :=
      { game_id := .vStr "101", game_event_id := .vInt 5, shot_id := 1,
        year_source := 2021, team_id := 10, year := none, season_type := "REG",
        rest := [] },
    mapping := some exMr,
    video_url := some "https://videos.nba.com/nba/pbp/media/2021/3/4/9999/5/abc_1280x720.mp4" }

/-- C1 witness: the matched example row gets the templated URL. -/
theorem video_url_spec_witness :
    exR1.video_url = some ("https://videos.nba.com/nba/pbp/media/"
      ++ toString exMr.year ++ "/" ++ toString exMr.month ++ "/"
      ++ toString exMr.day ++ "/" ++ exMr.api_game_id ++ "/" ++ toString (5 : Int)
      ++ "/" ++ "abc" ++ "_1280x720.mp4") :=
  (video_url_spec exShot exBackup exMergedOut (by decide) exR1 (by decide)).2
    exMr "abc" 5 (by decide) (by decide) (by decide) (by decide)

/-- C2 witness: on the example inputs (unique mapping keys) the enriched
table keeps the shot table's row count. -/
theorem merge_preserves_row_count_witness :
    exMergedOut.2.rows.length = exShot.rows.length :=
  merge_preserves_row_count exShot exBackup exMergedOut exBackup (by decide)
    (by decide) (by decide)

/-- C9: `merge_with_uuid_data` mutates the shot table it is given: a
pre-existing `year` column is dropped in place, and `GAME_ID` and
`GAME_EVENT_ID` are coerced in place to string and integer, so with a
`year` column present the caller's table differs after the call. -/
theorem merge_mutates_input
    (shot : ShotTable) (backup : List BRow) (out : ShotTable × MTable)
    (h : merge_with_uuid_data shot backup = some out) :
    out.1.cols = shot.cols.filter (fun c => !(c == "year"))
    ∧ ("year" ∈ shot.cols → out.1 ≠ shot)
    ∧ List.Forall₂ (fun r' r =>
        r'.game_id = r.game_id.astypeStr
        ∧ r.game_event_id.astypeInt = some r'.game_event_id
        ∧ r'.year = (if "year" ∈ shot.cols then none else r.year)
        ∧ r'.shot_id = r.shot_id ∧ r'.year_source = r.year_source
        ∧ r'.team_id = r.team_id ∧ r'.season_type = r.season_type
        ∧ r'.rest = r.rest) out.1.rows shot.rows := by
  unfold merge_with_uuid_data at h
  cases hc : optMap coerceS (dropYearCol shot).rows with
  | none => rw [hc] at h; simp at h
  | some coerced =>
    rw [hc] at h
    cases hb : optMap coerceB backup with
    | none => rw [hb] at h; simp at h
    | some backupC =>
      rw [hb] at h
      simp only [Option.some.injEq] at h
      subst h
      have hcols : (dropYearCol shot).cols = shot.cols.filter (fun c => !(c == "year")) := by
        unfold dropYearCol
        by_cases hy : "year" ∈ shot.cols
        · simp [hy]
        · simp only [hy, if_false]
          refine (List.filter_eq_self.mpr ?_).symm
          intro c hcmem
          simp only [Bool.not_eq_true']
          exact beq_eq_false_iff_ne.mpr (fun hce => hy (hce ▸ hcmem))
      refine ⟨hcols, ?_, ?_⟩
      · intro hy heq
        have hyn : "year" ∉ (shot.cols.filter (fun c => !(c == "year"))) := by
          intro hmem
          rcases List.mem_filter.mp hmem with ⟨_, hbad⟩
          simp at hbad
        rw [← hcols, congrArg ShotTable.cols heq] at hyn
        exact hyn hy
      · have h2 := optMap_forall₂ hc
        rw [List.forall₂_map_left_iff]
        by_cases hy : "year" ∈ shot.cols
        · have hrows : (dropYearCol shot).rows
              = shot.rows.map (fun r => { r with year := none }) := by
            unfold dropYearCol; simp [hy]
          rw [hrows, List.forall₂_map_right_iff] at h2
          refine h2.imp ?_
          intro sn r hsr
          have hspec := coerceS_spec hsr
          rw [hspec.1]
          exact ⟨rfl, hspec.2, by simp [hy], rfl, rfl, rfl, rfl, rfl⟩
        · have hrows : (dropYearCol shot).rows = shot.rows := by
            unfold dropYearCol; simp [hy]
          rw [hrows] at h2
          refine h2.imp ?_
          intro sn r hsr
          have hspec := coerceS_spec hsr
          rw [hspec.1]
          exact ⟨rfl, hspec.2, by simp [hy], rfl, rfl, rfl, rfl, rfl⟩

/-- C9 witness: on the example inputs (whose table has a `year` column)
the caller's table differs after the call and has `year` filtered out. -/
theorem merge_mutates_input_witness :
    exMergedOut.1.cols = exShot.cols.filter (fun c => !(c == "year"))
    ∧ exMergedOut.1 ≠ exShot :=
  have h := merge_mutates_input exShot exBackup exMergedOut (by decide)
  ⟨h.1, h.2.1 (by decide)⟩

/-- C4: every row in the group written for key (Y, T) has
`year_source = Y` and `team_id = T`; no row with a different pair is in
that group's file. -/
theorem partition_rows_match_key (t : MTable) (y tm : Int) (g : List MRow)
    (hg : ((y, tm), g) ∈ groupsOf t) :
    ∀ r ∈ g, r.shot.year_source = y ∧ r.shot.team_id = tm := by
  unfold groupsOf at hg
  rcases List.mem_map.mp hg with ⟨k, _, hk⟩
  simp only [Prod.mk.injEq] at hk
  obtain ⟨hk1, hk2⟩ := hk
  subst hk1
  intro r hr
  rw [← hk2] at hr
  rcases List.mem_filter.mp hr with ⟨_, hkey⟩
  have hkeq : rowKey r = (y, tm) := of_decide_eq_true hkey
  exact ⟨congrArg Prod.fst hkeq, congrArg Prod.snd hkeq⟩

/-- C4 witness: applied to the merged example table's single group. -/
theorem partition_rows_match_key_witness :
    exR1.shot.year_source = 2021 ∧ exR1.shot.team_id = 10 :=
  partition_rows_match_key exMergedOut.2 2021 10
    (groupRowsAt exMergedOut.2 (2021, 10)) (by decide) exR1 (by decide)

/-- C5: in every written file the first column is `SHOT_ID`, the second
is `video_url`, and the remaining columns keep their existing relative
order (the remainder is a sublist of the input columns containing every
other input column). -/
theorem partition_column_order (cols : List String) :
    (finalColumns cols).take 2 = ["SHOT_ID", "video_url"]
    ∧ List.Sublist ((finalColumns cols).drop 2) cols
    ∧ ∀ c ∈ cols, c ≠ "SHOT_ID" → c ≠ "video_url" →
        c ∈ (finalColumns cols).drop 2 := by
  refine ⟨rfl, ?_, ?_⟩
  · exact List.filter_sublist cols
  · intro c hc h1 h2
    refine List.mem_filter.mpr ⟨hc, ?_⟩
    simp [h1, h2]

/-- C5 witness: applied to a concrete column list. -/
theorem partition_column_order_witness :
    (finalColumns ["GAME_ID", "SHOT_ID", "video_url", "LOC_X"]).take 2
      = ["SHOT_ID", "video_url"]
    ∧ "GAME_ID" ∈ (finalColumns ["GAME_ID", "SHOT_ID", "video_url", "LOC_X"]).drop 2 :=
  have h := partition_column_order ["GAME_ID", "SHOT_ID", "video_url", "LOC_X"]
  ⟨h.1, h.2.2 "GAME_ID" (by decide) (by decide) (by decide)⟩

/-- C6: running the partition writer twice on the same table and output
directory leaves the filesystem exactly as after the first run: every
write is a full overwrite, so the second run is absorbed. -/
theorem save_twice_eq_save_once (t : MTable) (base : String) (fs : FS) :
    (save_data_by_year_and_team t base
      (save_data_by_year_and_team t base fs).2).2
    = (save_data_by_year_and_team t base fs).2 := by
  unfold save_data_by_year_and_team
  by_cases hcols : "year_source" ∈ t.cols ∧ "team_id" ∈ t.cols
  · simp only [if_pos hcols]
    exact applyWrites_idem _ fs
  · simp only [if_neg hcols]

/-- C7: when `year_source` or `team_id` is missing, the writer reports
the error outcome and leaves the filesystem untouched. -/
theorem save_missing_columns_no_write (t : MTable) (base : String) (fs : FS)
    (h : "year_source" ∉ t.cols ∨ "team_id" ∉ t.cols) :
    save_data_by_year_and_team t base fs = (SaveResult.missingColumns, fs) := by
  unfold save_data_by_year_and_team
  rw [if_neg]
  intro hcontr
  rcases h with h | h
  · exact h hcontr.1
  · exact h hcontr.2

/-- A merged table lacking the `year_source` column. -/
def exBadT : MTable := { cols := ["SHOT_ID", "video_url", "team_id"], rows := [] }

/-- C7 witness: the writer on a table lacking `year_source` returns the
error outcome with the filesystem unchanged. -/
theorem save_missing_columns_no_write_witness :
    save_data_by_year_and_team exBadT "out" (fun _ => none)
      = (SaveResult.missingColumns, ((fun _ => none) : FS)) :=
  save_missing_columns_no_write exBadT "out" (fun _ => none) (Or.inl (by decide))

/-- C10: the groups partition the merged table: group sizes sum to the
row count, and every row lies in exactly one group (its key's group). -/
theorem partition_complete_disjoint (t : MTable) :
    ((groupsOf t).map (fun kg => kg.2.length)).sum = t.rows.length
    ∧ ∀ r ∈ t.rows,
        ((rowKey r, groupRowsAt t (rowKey r)) ∈ groupsOf t
          ∧ r ∈ groupRowsAt t (rowKey r))
        ∧ ∀ kg', kg' ∈ groupsOf t → r ∈ kg'.2 →
            kg' = (rowKey r, groupRowsAt t (rowKey r)) := by
  constructor
  · unfold groupsOf
    rw [List.map_map]
    exact sum_group_lengths rowKey (groupKeys t) t.rows (groupKeys_nodup t)
      (fun r hr => mem_groupKeys.mpr (List.mem_map.mpr ⟨r, hr, rfl⟩))
  · intro r hr
    refine ⟨⟨?_, ?_⟩, ?_⟩
    · exact List.mem_map.mpr
        ⟨rowKey r, mem_groupKeys.mpr (List.mem_map.mpr ⟨r, hr, rfl⟩), rfl⟩
    · exact List.mem_filter.mpr ⟨hr, by simp⟩
    · intro kg' hkg' hrkg'
      unfold groupsOf at hkg'
      rcases List.mem_map.mp hkg' with ⟨k, _, hk⟩
      rw [← hk] at hrkg' ⊢
      rcases List.mem_filter.mp hrkg' with ⟨_, hkey⟩
      have hkeq : rowKey r = k := of_decide_eq_true hkey
      rw [← hkeq]

/-- C10 witness: on the merged example table the group sizes sum to the
row count and the first row's key group is among the written groups. -/
theorem partition_complete_disjoint_witness :
    ((groupsOf exMergedOut.2).map (fun kg => kg.2.length)).sum
      = exMergedOut.2.rows.length
    ∧ ((2021, 10), groupRowsAt exMergedOut.2 (2021, 10)) ∈ groupsOf exMergedOut.2 :=
  have h := partition_complete_disjoint exMergedOut.2
  ⟨h.1, ((h.2 exR1 (by decide)).1).1⟩

/-- C3: with at least one readable input file, the combiner writes the
concatenation sorted ascending by (year, month, day, shot id), and the
sort is stable: rows with equal composite keys keep the relative order
they had in the concatenation of the input files. -/
theorem combine_sorted_and_stable
    (files : List (String × Option (List CRow))) (outPath : String) (fs : FS)
    (hne : files.filterMap Prod.snd ≠ []) :
    (combine_shot_data true files outPath fs).1
      = CombineResult.written (sortRows (files.filterMap Prod.snd).flatten)
    ∧ List.Pairwise (fun a b => keyLeP (crowKey a) (crowKey b))
        (sortRows (files.filterMap Prod.snd).flatten)
    ∧ ∀ k, (sortRows (files.filterMap Prod.snd).flatten).filter
            (fun r => decide (crowKey r = k))
          = ((files.filterMap Prod.snd).flatten).filter
            (fun r => decide (crowKey r = k)) := by
  refine ⟨?_, ?_, ?_⟩
  · have hfe : files.isEmpty = false := by
      cases files with
      | nil => simp at hne
      | cons f fsx => rfl
    cases hm : files.filterMap Prod.snd with
    | nil => exact absurd hm hne
    | cons d ds =>
      unfold combine_shot_data
      rw [hm]
      simp [hfe]
  · have hp := pairwise_insertionSort crowLe_total crowLe_trans
      ((files.filterMap Prod.snd).flatten)
    apply hp.imp
    intro a b hab
    exact of_decide_eq_true hab
  · intro k
    exact filter_insertionSort (crow_eqkey_not_strict k)
      ((files.filterMap Prod.snd).flatten)

/-- Three example input files: two readable (with a key tie across
files), one unreadable. -/
def exFiles : List (String × Option (List CRow)) :=
  [("2021/10.csv", some [{ year := 2021, month := 3, day := 4, shot_id := 2, rest := [] },
                         { year := 2021, month := 3, day := 4, shot_id := 1, rest := [] }]),
   ("bad.csv", none),
   ("2021/11.csv", some [{ year := 2021, month := 3, day := 4, shot_id := 1, rest := ["dup"] }])]

/-- C3 witness: on the example inputs the combiner writes the sorted
concatenation, and the equal-key rows keep their concatenation order. -/
theorem combine_sorted_and_stable_witness :
    (combine_shot_data true exFiles "all.csv" (fun _ => none)).1
      = CombineResult.written (sortRows (exFiles.filterMap Prod.snd).flatten)
    ∧ (sortRows (exFiles.filterMap Prod.snd).flatten).filter
        (fun r => decide (crowKey r = (2021, 3, 4, 1)))
      = ((exFiles.filterMap Prod.snd).flatten).filter
        (fun r => decide (crowKey r = (2021, 3, 4, 1))) :=
  have h := combine_sorted_and_stable exFiles "all.csv" (fun _ => none) (by decide)
  ⟨h.1, h.2.2 (2021, 3, 4, 1)⟩

/-- C8: with the root directory present but zero files found, or zero
files readable, the combiner leaves the filesystem untouched and ends in
one of the two normal (non-error) empty outcomes. -/
theorem combine_empty_no_output
    (files : List (String × Option (List CRow))) (outPath : String) (fs : FS)
    (h : files = [] ∨ files.filterMap Prod.snd = []) :
    (combine_shot_data true files outPath fs).2 = fs
    ∧ ((combine_shot_data true files outPath fs).1 = CombineResult.noFilesFound
        ∨ (combine_shot_data true files outPath fs).1 = CombineResult.noneRead) := by
  by_cases hfe : files = []
  · subst hfe
    exact ⟨rfl, Or.inl rfl⟩
  · have hm : files.filterMap Prod.snd = [] := by
      rcases h with h | h
      · exact absurd h hfe
      · exact h
    have hfeb : files.isEmpty = false := by
      cases files with
      | nil => exact absurd rfl hfe
      | cons f fsx => rfl
    constructor
    · unfold combine_shot_data
      rw [hm]
      simp [hfeb]
    · right
      unfold combine_shot_data
      rw [hm]
      simp [hfeb]

/-- C8 witness: a run whose only discovered file is unreadable leaves
the filesystem untouched and ends in the normal no-rows outcome. -/
theorem combine_empty_no_output_witness :
    (combine_shot_data true [("a.csv", (none : Option (List CRow)))] "out.csv"
        (fun _ => none)).2 = ((fun _ => none) : FS)
    ∧ ((combine_shot_data true [("a.csv", (none : Option (List CRow)))] "out.csv"
          (fun _ => none)).1 = CombineResult.noFilesFound
        ∨ (combine_shot_data true [("a.csv", (none : Option (List CRow)))] "out.csv"
          (fun _ => none)).1 = CombineResult.noneRead) :=
  combine_empty_no_output [("a.csv", none)] "out.csv" (fun _ => none)
    (Or.inr (by decide))
